import Mathlib

/-!
Verification of the runner job-management engine.

This file shallowly embeds the core of the `ronakg/runner` repository:
the job lifecycle (pkg/lib/job.go: StartJob, kill, Stop, Status, waiter,
outputWriter), the output fan-out tailer (job.Output), the server's
ownership registry (cmd/server: safeJobs keyed by jobId + clientCN), and
the wire status mapping (pkg/proto/runner.proto).

Concurrency is embedded as small-step interleaving semantics: every
atomic operation of the Go code (a mutex-protected status read/write,
a compare-and-set, a syscall, a channel close, a pipe read reaching EOF)
is one transition.  A state records the shared cells and the program
counters of the goroutines.  Theorems are invariants over all reachable
states, or concrete executed traces exhibiting a behavior.
-/

namespace Runner

/-- Modelled from the spec: the source file defining `JobStatus` and its
constants is absent from src (job.go only references `StatusCreated`,
`StatusRunning`, `StatusCompleted`, `StatusStopped`, `StatusTimedOut`).
Spec section 3 lists the four live-or-terminal states and section 6 gives
their wire codes RUNNING=0, COMPLETED=1, STOPPED=2, TIMEDOUT=3; `created`
is the pre-start state, never observable through the RPC surface. -/
inductive JobStatus
  | running
  | completed
  | stopped
  | timedOut
  | created
  deriving DecidableEq, Repr

/-- Modelled from the spec: numeric value of the direct Go cast
`proto.JobStatus(status)` used by the server handlers; spec section 6
fixes RUNNING=0, COMPLETED=1, STOPPED=2, TIMEDOUT=3. -/
def libCode : JobStatus → Int
  | .running => 0
  | .completed => 1
  | .stopped => 2
  | .timedOut => 3
  | .created => 4

namespace Lifecycle

/-- Cause passed to `job.kill`: `Stop()` passes `StatusStopped`, the
waiter timeout branch passes `StatusTimedOut` (job.go:180, job.go:309). -/
inductive Cause
  | byStop
  | byTimeout
  deriving DecidableEq, Repr

/-- Terminal status that `kill` sets for a cause (job.go:172). -/
def Cause.toStatus : Cause → JobStatus
  | .byStop => .stopped
  | .byTimeout => .timedOut

/-- State of the sandboxed child process tree. -/
inductive ChildState
  | alive
  | exited (code : Int)
  | killed
  deriving DecidableEq, Repr

/-- Value of Go `cmd.ProcessState.ExitCode()` once the child is gone:
the child's own code on natural exit, -1 when terminated by a signal. -/
def childExitCode : ChildState → Int
  | .alive => -1
  | .exited c => c
  | .killed => -1

/-- Effect of `syscall.Kill(-pid, SIGKILL)` on the child: kills it when
alive; when the child already exited the syscall fails (ESRCH) and is
only logged (job.go:168-171). -/
def killChild : ChildState → ChildState
  | .alive => .killed
  | s => s

/-- Program counter of the `j.stopOnce` guarded `kill` body
(job.go:162-175).  `kill` is NOT one atomic step in the source: the body
reads the status (`j.status.Get() == StatusRunning`), then issues the
SIGKILL syscall, then writes the status (`j.status.Set(status)`); other
goroutines can interleave between these three operations.
`safeJobStatus` itself is modelled from the spec (its file is absent
from src): a mutex-protected cell whose Get, Set and UpdateIf
(compare-and-set) are each individually atomic. -/
inductive OncePC
  | fresh
  | armed (c : Cause)
  | fired (c : Cause)
  | done (d : Option Cause)
  deriving DecidableEq, Repr

/-- Program counter of the waiter goroutine (job.go:300-334).
`w0` = in the timeout select (only entered when Timeout > 0);
`wKill`/`wKillB1`/`wKillB2` = inside `kill(StatusTimedOut)` at the
once-entry, post-check, and post-syscall points; `w1` = blocked on
`<-j.outputWriterDone`; `w2` = at `j.cmd.Wait()`; `w3` = at
`j.status.UpdateIf(StatusRunning, StatusCompleted)`; `w4` = at
`atomic.StoreInt32(&j.exitCode, ...)`; `w5` = at `j.deleteRootFSTree()`;
`wDone` = returned (its `wg.Done` ran). -/
inductive WaiterPC
  | w0
  | wKill
  | wKillB1
  | wKillB2
  | w1
  | w2
  | w3
  | w4
  | w5
  | wDone
  deriving DecidableEq, Repr

/-- Interleaving state of one job after a successful `StartJob`:
the shared cells (`status`, `exitCode`), the stop-once guard, the waiter
program counter, the child, the output writer, and counters of `Stop()`
callers in each phase (all callers are identical, so counters suffice:
`stopPending` callers are at or inside the `kill` call, `stopWaiting`
callers are blocked in `wg.Wait()`, `stopReturned` have returned). -/
structure JobState where
  status : JobStatus
  exitCode : Int
  exitStored : Bool
  once : OncePC
  wpc : WaiterPC
  child : ChildState
  writerFin : Bool
  reaped : Bool
  rootfsRemoved : Bool
  sigkills : Nat
  stopPending : Nat
  stopWaiting : Nat
  stopReturned : Nat
  deriving DecidableEq, Repr

/-- State right after `StartJob` returned successfully (job.go:147-153):
status Running, exitCode -1, child alive, waiter started (in the select
when Timeout > 0, else directly blocking on writer-done), with `nStops`
eventual `Stop()` callers. -/
def initState (timeout : Int) (nStops : Nat) : JobState where
  status := .running
  exitCode := -1
  exitStored := false
  once := .fresh
  wpc := if timeout > 0 then .w0 else .w1
  child := .alive
  writerFin := false
  reaped := false
  rootfsRemoved := false
  sigkills := 0
  stopPending := nStops
  stopWaiting := 0
  stopReturned := 0

/-- Atomic actions of the interleaving semantics, one per atomic
operation of job.go. -/
inductive Act
  | childExit (code : Int)
  | writerFinish
  | stopKillCheck
  | stopKillDispatch
  | stopKillSet
  | stopSkip
  | stopReturn
  | wSelectDone
  | wTimerFires
  | wKillCheck
  | wKillSkip
  | wKillDispatch
  | wKillSet
  | wWriterDone
  | wReap
  | wCAS
  | wStore
  | wCleanup
  deriving DecidableEq, Repr

/-- Small-step interpreter: `apply a s = some t` when action `a` is
enabled in `s` and yields `t`.

Correspondence with job.go:
* `childExit c` — the child process tree exits on its own with code `c`.
* `writerFinish` — `outputWriter` (job.go:337-358) sees EOF on both
  pipes (possible only once the child is gone), closes the output file,
  closes `outputWriterDone`, and its `wg.Done` runs: one flag, since the
  three happen in that order with no observable intermediate state used
  by the claims.
* `stopKillCheck` — a `Stop()` caller enters `stopOnce.Do`; the body
  reads the status (job.go:165).  If Running it stays inside the body
  (once becomes `armed`), otherwise the body is over (`done none`) and
  the caller moves on to `wg.Wait()`.
* `stopKillDispatch` — the in-body caller issues the SIGKILL syscall
  (job.go:168).
* `stopKillSet` — the in-body caller runs `j.status.Set(StatusStopped)`
  (job.go:172), finishing the once body, and moves on to `wg.Wait()`.
* `stopSkip` — a `Stop()` caller finds the once already consumed
  (`sync.Once.Do` returns once the first body completed) and moves on
  to `wg.Wait()`.
* `stopReturn` — a caller's `wg.Wait()` returns: requires the waiter
  and the output writer to have run their `wg.Done` (job.go:181).
* `wSelectDone` / `wTimerFires` — the waiter's select (job.go:306-312)
  picks writer-done, or the timer fires.
* `wKillCheck` / `wKillSkip` / `wKillDispatch` / `wKillSet` — the waiter
  runs `kill(StatusTimedOut)`, same three-step body via the shared once.
* `wWriterDone` — `<-j.outputWriterDone` unblocks (job.go:316).
* `wReap` — `j.cmd.Wait()` returns, reaping the child (job.go:319).
* `wCAS` — `j.status.UpdateIf(StatusRunning, StatusCompleted)`
  (job.go:326), an atomic compare-and-set.
* `wStore` — `atomic.StoreInt32(&j.exitCode, ExitCode())` (job.go:327).
* `wCleanup` — `j.deleteRootFSTree()` and the waiter's `wg.Done`. -/
def apply : Act → JobState → Option JobState
  | .childExit c, s =>
    if s.child = .alive then some { s with child := .exited c } else none
  | .writerFinish, s =>
    if s.child ≠ .alive ∧ s.writerFin = false then
      some { s with writerFin := true }
    else none
  | .stopKillCheck, s =>
    if s.stopPending ≠ 0 ∧ s.once = .fresh then
      if s.status = .running then
        some { s with once := .armed .byStop }
      else
        some { s with once := .done none,
                      stopPending := s.stopPending - 1,
                      stopWaiting := s.stopWaiting + 1 }
    else none
  | .stopKillDispatch, s =>
    if s.once = .armed .byStop then
      some { s with sigkills := s.sigkills + 1,
                    child := killChild s.child,
                    once := .fired .byStop }
    else none
  | .stopKillSet, s =>
    if s.stopPending ≠ 0 ∧ s.once = .fired .byStop then
      some { s with status := .stopped,
                    once := .done (some .byStop),
                    stopPending := s.stopPending - 1,
                    stopWaiting := s.stopWaiting + 1 }
    else none
  | .stopSkip, s =>
    match s.once with
    | .done _ =>
      if s.stopPending ≠ 0 then
        some { s with stopPending := s.stopPending - 1,
                      stopWaiting := s.stopWaiting + 1 }
      else none
    | _ => none
  | .stopReturn, s =>
    if s.stopWaiting ≠ 0 ∧ s.wpc = .wDone ∧ s.writerFin = true then
      some { s with stopWaiting := s.stopWaiting - 1,
                    stopReturned := s.stopReturned + 1 }
    else none
  | .wSelectDone, s =>
    if s.wpc = .w0 ∧ s.writerFin = true then some { s with wpc := .w1 }
    else none
  | .wTimerFires, s =>
    if s.wpc = .w0 then some { s with wpc := .wKill } else none
  | .wKillCheck, s =>
    if s.wpc = .wKill ∧ s.once = .fresh then
      if s.status = .running then
        some { s with once := .armed .byTimeout, wpc := .wKillB1 }
      else
        some { s with once := .done none, wpc := .w1 }
    else none
  | .wKillSkip, s =>
    match s.once with
    | .done _ => if s.wpc = .wKill then some { s with wpc := .w1 } else none
    | _ => none
  | .wKillDispatch, s =>
    if s.wpc = .wKillB1 ∧ s.once = .armed .byTimeout then
      some { s with sigkills := s.sigkills + 1,
                    child := killChild s.child,
                    once := .fired .byTimeout,
                    wpc := .wKillB2 }
    else none
  | .wKillSet, s =>
    if s.wpc = .wKillB2 ∧ s.once = .fired .byTimeout then
      some { s with status := .timedOut,
                    once := .done (some .byTimeout),
                    wpc := .w1 }
    else none
  | .wWriterDone, s =>
    if s.wpc = .w1 ∧ s.writerFin = true then some { s with wpc := .w2 }
    else none
  | .wReap, s =>
    if s.wpc = .w2 ∧ s.child ≠ .alive then
      some { s with reaped := true, wpc := .w3 }
    else none
  | .wCAS, s =>
    if s.wpc = .w3 then
      some { s with status := if s.status = .running then .completed else s.status,
                    wpc := .w4 }
    else none
  | .wStore, s =>
    if s.wpc = .w4 then
      some { s with exitCode := childExitCode s.child,
                    exitStored := true,
                    wpc := .w5 }
    else none
  | .wCleanup, s =>
    if s.wpc = .w5 then
      some { s with rootfsRemoved := true, wpc := .wDone }
    else none

/-- One interleaving step: some goroutine performs one atomic action. -/
def Step (s t : JobState) : Prop := ∃ a, apply a s = some t

/-- States reachable from `s0` by interleaving steps. -/
inductive Reach (s0 : JobState) : JobState → Prop
  | refl : Reach s0 s0
  | tail {s t : JobState} : Reach s0 s → Step s t → Reach s0 t

/-- Run a concrete list of actions. -/
def runActs : JobState → List Act → Option JobState
  | s, [] => some s
  | s, a :: rest =>
    match apply a s with
    | some t => runActs t rest
    | none => none

theorem reach_head {s t u : JobState} (h : Step s t) (ht : Reach t u) :
    Reach s u := by
  induction ht with
  | refl => exact Reach.tail Reach.refl h
  | tail _ hstep ih => exact Reach.tail ih hstep

theorem reach_of_runActs {acts : List Act} :
    ∀ {s t : JobState}, runActs s acts = some t → Reach s t := by
  induction acts with
  | nil => intro s t h; cases h; exact Reach.refl
  | cons a rest ih =>
    intro s t h
    unfold runActs at h
    cases ha : apply a s with
    | none => rw [ha] at h; cases h
    | some u => rw [ha] at h; exact reach_head ⟨a, ha⟩ (ih h)

/-- Number of SIGKILL syscalls implied by the once-guard position. -/
def onceKills : OncePC → Nat
  | .fired _ => 1
  | .done (some _) => 1
  | _ => 0

/-- Inductive invariant of the lifecycle interleaving system. -/
structure Inv (s : JobState) : Prop where
  notStored : s.exitStored = false → s.exitCode = -1
  storedIff : s.exitStored = true ↔ (s.wpc = .w5 ∨ s.wpc = .wDone)
  storedVal : s.exitStored = true → s.exitCode = childExitCode s.child
  lateChild : (s.wpc = .w3 ∨ s.wpc = .w4 ∨ s.wpc = .w5 ∨ s.wpc = .wDone) →
    s.child ≠ .alive ∧ s.reaped = true
  lateWriter : (s.wpc = .w2 ∨ s.wpc = .w3 ∨ s.wpc = .w4 ∨ s.wpc = .w5 ∨
      s.wpc = .wDone) → s.writerFin = true
  lateStatus : (s.wpc = .w4 ∨ s.wpc = .w5 ∨ s.wpc = .wDone) →
    s.status ≠ .running
  doneCleanup : s.wpc = .wDone → s.rootfsRemoved = true
  sigCount : s.sigkills = onceKills s.once
  stopDone : s.once = .done (some .byStop) → s.status = .stopped
  reapedWriter : s.reaped = true → s.writerFin = true
  returnedDrained : 1 ≤ s.stopReturned → s.wpc = .wDone ∧ s.writerFin = true

theorem init_inv (timeout : Int) (nStops : Nat) :
    Inv (initState timeout nStops) := by
  constructor <;> simp [initState, onceKills] <;> split <;> simp

set_option maxHeartbeats 1000000 in
theorem step_inv {s t : JobState} (hs : Inv s) (h : Step s t) : Inv t := by
  obtain ⟨hns, stIff, stVal, lc, lw, ls, dc, sc, sd, hrw, hrd⟩ := hs
  obtain ⟨a, ha⟩ := h
  cases a with
  | childExit c =>
    simp only [apply] at ha
    split_ifs at ha with hg
    simp only [Option.some.injEq] at ha
    subst ha
    constructor <;> intros <;> simp_all [onceKills]
  | writerFinish =>
    simp only [apply] at ha
    split_ifs at ha with hg
    simp only [Option.some.injEq] at ha
    subst ha
    constructor <;> intros <;> simp_all [onceKills]
  | stopKillCheck =>
    simp only [apply] at ha
    split_ifs at ha with hg hrun
    all_goals (simp only [Option.some.injEq] at ha; subst ha)
    all_goals (constructor <;> intros <;> simp_all [onceKills])
  | stopKillDispatch =>
    simp only [apply] at ha
    split_ifs at ha with hg
    simp only [Option.some.injEq] at ha
    subst ha
    constructor <;> intros <;> simp_all [onceKills, killChild]
  | stopKillSet =>
    simp only [apply] at ha
    split_ifs at ha with hg
    simp only [Option.some.injEq] at ha
    subst ha
    constructor <;> intros <;> simp_all [onceKills]
  | stopSkip =>
    simp only [apply] at ha
    split at ha
    case _ d hd =>
      split_ifs at ha with hg
      simp only [Option.some.injEq] at ha
      subst ha
      constructor <;> intros <;> simp_all [onceKills]
    case _ => cases ha
  | stopReturn =>
    simp only [apply] at ha
    split_ifs at ha with hg
    simp only [Option.some.injEq] at ha
    subst ha
    constructor <;> intros <;> simp_all [onceKills]
  | wSelectDone =>
    simp only [apply] at ha
    split_ifs at ha with hg
    simp only [Option.some.injEq] at ha
    subst ha
    constructor <;> intros <;> simp_all [onceKills]
  | wTimerFires =>
    simp only [apply] at ha
    split_ifs at ha with hg
    simp only [Option.some.injEq] at ha
    subst ha
    constructor <;> intros <;> simp_all [onceKills]
  | wKillCheck =>
    simp only [apply] at ha
    split_ifs at ha with hg hrun
    all_goals (simp only [Option.some.injEq] at ha; subst ha)
    all_goals (constructor <;> intros <;> simp_all [onceKills])
  | wKillSkip =>
    simp only [apply] at ha
    split at ha
    case _ d hd =>
      split_ifs at ha with hg
      simp only [Option.some.injEq] at ha
      subst ha
      constructor <;> intros <;> simp_all [onceKills]
    case _ => cases ha
  | wKillDispatch =>
    simp only [apply] at ha
    split_ifs at ha with hg
    simp only [Option.some.injEq] at ha
    subst ha
    constructor <;> intros <;> simp_all [onceKills, killChild]
  | wKillSet =>
    simp only [apply] at ha
    split_ifs at ha with hg
    simp only [Option.some.injEq] at ha
    subst ha
    constructor <;> intros <;> simp_all [onceKills]
  | wWriterDone =>
    simp only [apply] at ha
    split_ifs at ha with hg
    simp only [Option.some.injEq] at ha
    subst ha
    constructor <;> intros <;> simp_all [onceKills]
  | wReap =>
    simp only [apply] at ha
    split_ifs at ha with hg
    simp only [Option.some.injEq] at ha
    subst ha
    constructor <;> intros <;> simp_all [onceKills]
  | wCAS =>
    simp only [apply] at ha
    split_ifs at ha with hg hrun
    all_goals (simp only [Option.some.injEq] at ha; subst ha)
    all_goals (constructor <;> intros <;> simp_all [onceKills])
  | wStore =>
    simp only [apply] at ha
    split_ifs at ha with hg
    simp only [Option.some.injEq] at ha
    subst ha
    constructor <;> intros <;> simp_all [onceKills]
  | wCleanup =>
    simp only [apply] at ha
    split_ifs at ha with hg
    simp only [Option.some.injEq] at ha
    subst ha
    constructor <;> intros <;> simp_all [onceKills]

theorem reach_inv {timeout : Int} {nStops : Nat} {s : JobState}
    (h : Reach (initState timeout nStops) s) : Inv s := by
  induction h with
  | refl => exact init_inv timeout nStops
  | tail _ hstep ih => exact step_inv ih hstep

/-- Once the waiter has stored the exit code, no step changes it: the
only writer of `j.exitCode` is the waiter's single StoreInt32. -/
theorem stored_stable {s u : JobState} (hs : Inv s) (h : Step s u)
    (hst : s.exitStored = true) :
    u.exitStored = true ∧ u.exitCode = s.exitCode := by
  obtain ⟨a, ha⟩ := h
  cases a with
  | childExit c =>
    simp only [apply] at ha
    split_ifs at ha
    simp only [Option.some.injEq] at ha
    subst ha; exact ⟨hst, rfl⟩
  | writerFinish =>
    simp only [apply] at ha
    split_ifs at ha
    simp only [Option.some.injEq] at ha
    subst ha; exact ⟨hst, rfl⟩
  | stopKillCheck =>
    simp only [apply] at ha
    split_ifs at ha
    all_goals (simp only [Option.some.injEq] at ha; subst ha; exact ⟨hst, rfl⟩)
  | stopKillDispatch =>
    simp only [apply] at ha
    split_ifs at ha
    simp only [Option.some.injEq] at ha
    subst ha; exact ⟨hst, rfl⟩
  | stopKillSet =>
    simp only [apply] at ha
    split_ifs at ha
    simp only [Option.some.injEq] at ha
    subst ha; exact ⟨hst, rfl⟩
  | stopSkip =>
    simp only [apply] at ha
    split at ha
    case _ => split_ifs at ha
              simp only [Option.some.injEq] at ha
              subst ha; exact ⟨hst, rfl⟩
    case _ => cases ha
  | stopReturn =>
    simp only [apply] at ha
    split_ifs at ha
    simp only [Option.some.injEq] at ha
    subst ha; exact ⟨hst, rfl⟩
  | wSelectDone =>
    simp only [apply] at ha
    split_ifs at ha
    simp only [Option.some.injEq] at ha
    subst ha; exact ⟨hst, rfl⟩
  | wTimerFires =>
    simp only [apply] at ha
    split_ifs at ha
    simp only [Option.some.injEq] at ha
    subst ha; exact ⟨hst, rfl⟩
  | wKillCheck =>
    simp only [apply] at ha
    split_ifs at ha
    all_goals (simp only [Option.some.injEq] at ha; subst ha; exact ⟨hst, rfl⟩)
  | wKillSkip =>
    simp only [apply] at ha
    split at ha
    case _ => split_ifs at ha
              simp only [Option.some.injEq] at ha
              subst ha; exact ⟨hst, rfl⟩
    case _ => cases ha
  | wKillDispatch =>
    simp only [apply] at ha
    split_ifs at ha
    simp only [Option.some.injEq] at ha
    subst ha; exact ⟨hst, rfl⟩
  | wKillSet =>
    simp only [apply] at ha
    split_ifs at ha
    simp only [Option.some.injEq] at ha
    subst ha; exact ⟨hst, rfl⟩
  | wWriterDone =>
    simp only [apply] at ha
    split_ifs at ha
    simp only [Option.some.injEq] at ha
    subst ha; exact ⟨hst, rfl⟩
  | wReap =>
    simp only [apply] at ha
    split_ifs at ha
    simp only [Option.some.injEq] at ha
    subst ha; exact ⟨hst, rfl⟩
  | wCAS =>
    simp only [apply] at ha
    split_ifs at ha
    all_goals (simp only [Option.some.injEq] at ha; subst ha; exact ⟨hst, rfl⟩)
  | wStore =>
    simp only [apply] at ha
    split_ifs at ha with hg
    exact absurd (hs.storedIff.mp hst) (by simp [hg])
  | wCleanup =>
    simp only [apply] at ha
    split_ifs at ha
    simp only [Option.some.injEq] at ha
    subst ha; exact ⟨hst, rfl⟩

/-- Inductive invariant holding when the configured timeout is ≤ 0: the
waiter skips the timer select entirely (job.go:305), so no timeout kill
is ever armed and the status can never become TimedOut. -/
structure NoTimeoutInv (s : JobState) : Prop where
  npc0 : s.wpc ≠ .w0
  npcK : s.wpc ≠ .wKill
  npcB1 : s.wpc ≠ .wKillB1
  npcB2 : s.wpc ≠ .wKillB2
  nonceA : s.once ≠ .armed .byTimeout
  nonceF : s.once ≠ .fired .byTimeout
  nonceD : s.once ≠ .done (some .byTimeout)
  nstatus : s.status ≠ .timedOut

theorem init_noTimeout {timeout : Int} (ht : timeout ≤ 0) (nStops : Nat) :
    NoTimeoutInv (initState timeout nStops) := by
  have hw : (if timeout > 0 then WaiterPC.w0 else WaiterPC.w1) = WaiterPC.w1 :=
    if_neg (by omega)
  constructor <;> simp [initState, hw]

theorem step_noTimeout {s t : JobState} (hs : NoTimeoutInv s) (h : Step s t) :
    NoTimeoutInv t := by
  obtain ⟨p0, pK, pB1, pB2, oA, oF, oD, nst⟩ := hs
  obtain ⟨a, ha⟩ := h
  cases a with
  | childExit c =>
    simp only [apply] at ha
    split_ifs at ha
    simp only [Option.some.injEq] at ha
    subst ha; constructor <;> simp_all
  | writerFinish =>
    simp only [apply] at ha
    split_ifs at ha
    simp only [Option.some.injEq] at ha
    subst ha; constructor <;> simp_all
  | stopKillCheck =>
    simp only [apply] at ha
    split_ifs at ha
    all_goals (simp only [Option.some.injEq] at ha; subst ha;
               constructor <;> simp_all)
  | stopKillDispatch =>
    simp only [apply] at ha
    split_ifs at ha
    simp only [Option.some.injEq] at ha
    subst ha; constructor <;> simp_all
  | stopKillSet =>
    simp only [apply] at ha
    split_ifs at ha
    simp only [Option.some.injEq] at ha
    subst ha; constructor <;> simp_all
  | stopSkip =>
    simp only [apply] at ha
    split at ha
    case _ => split_ifs at ha
              simp only [Option.some.injEq] at ha
              subst ha; constructor <;> simp_all
    case _ => cases ha
  | stopReturn =>
    simp only [apply] at ha
    split_ifs at ha
    simp only [Option.some.injEq] at ha
    subst ha; constructor <;> simp_all
  | wSelectDone =>
    simp only [apply] at ha
    split_ifs at ha with hg
    exact absurd hg.1 p0
  | wTimerFires =>
    simp only [apply] at ha
    split_ifs at ha with hg
    exact absurd hg p0
  | wKillCheck =>
    simp only [apply] at ha
    split_ifs at ha with hg
    · exact absurd hg.1 pK
    · exact absurd hg.1 pK
  | wKillSkip =>
    simp only [apply] at ha
    split at ha
    case _ => split_ifs at ha with hg
              exact absurd hg pK
    case _ => cases ha
  | wKillDispatch =>
    simp only [apply] at ha
    split_ifs at ha with hg
    exact absurd hg.1 pB1
  | wKillSet =>
    simp only [apply] at ha
    split_ifs at ha with hg
    exact absurd hg.1 pB2
  | wWriterDone =>
    simp only [apply] at ha
    split_ifs at ha
    simp only [Option.some.injEq] at ha
    subst ha; constructor <;> simp_all
  | wReap =>
    simp only [apply] at ha
    split_ifs at ha
    simp only [Option.some.injEq] at ha
    subst ha; constructor <;> simp_all
  | wCAS =>
    simp only [apply] at ha
    split_ifs at ha
    all_goals (simp only [Option.some.injEq] at ha; subst ha;
               constructor <;> simp_all)
  | wStore =>
    simp only [apply] at ha
    split_ifs at ha
    simp only [Option.some.injEq] at ha
    subst ha; constructor <;> simp_all
  | wCleanup =>
    simp only [apply] at ha
    split_ifs at ha
    simp only [Option.some.injEq] at ha
    subst ha; constructor <;> simp_all

theorem reach_noTimeout {timeout : Int} {nStops : Nat} {s : JobState}
    (ht : timeout ≤ 0) (h : Reach (initState timeout nStops) s) :
    NoTimeoutInv s := by
  induction h with
  | refl => exact init_noTimeout ht nStops
  | tail _ hstep ih => exact step_noTimeout ih hstep

theorem onceKills_le_one (o : OncePC) : onceKills o ≤ 1 := by
  cases o with
  | fresh => simp [onceKills]
  | armed c => simp [onceKills]
  | fired c => simp [onceKills]
  | done d => cases d <;> simp [onceKills]

/-! Concrete interleavings, executed with `runActs`. -/

/-- Trace for the kill/waiter race: `Stop()` reads status Running
(job.go:165) and issues SIGKILL (job.go:168); before its
`j.status.Set(StatusStopped)` runs, the killed child is reaped and the
waiter's CAS makes the status Completed and stores the exit code; then
the pending `Set` runs. -/
def killRaceActs : List Act :=
  [.stopKillCheck, .stopKillDispatch, .writerFinish, .wWriterDone,
   .wReap, .wCAS, .wStore]

def killRaceMid : JobState where
  status := .completed
  exitCode := -1
  exitStored := true
  once := .fired .byStop
  wpc := .w5
  child := .killed
  writerFin := true
  reaped := true
  rootfsRemoved := false
  sigkills := 1
  stopPending := 1
  stopWaiting := 0
  stopReturned := 0

def killRaceFinal : JobState where
  status := .stopped
  exitCode := -1
  exitStored := true
  once := .done (some .byStop)
  wpc := .w5
  child := .killed
  writerFin := true
  reaped := true
  rootfsRemoved := false
  sigkills := 1
  stopPending := 0
  stopWaiting := 1
  stopReturned := 0

/-- C3: evaluation of the code at the failing interleaving.  The claim
says the status leaves Running exactly once and never changes after a
terminal state is set.  The code's `kill` is a non-atomic
check-then-act (`status.Get() == Running` at job.go:165, then
`status.Set` at job.go:172): between the two, the waiter's CAS
(job.go:326) sets Completed — a terminal state — and then the pending
`Set` overwrites it with Stopped, a second transition after terminal. -/
theorem status_changes_after_terminal :
    runActs (initState 0 1) killRaceActs = some killRaceMid ∧
    killRaceMid.status = .completed ∧
    runActs killRaceMid [.stopKillSet] = some killRaceFinal ∧
    killRaceFinal.status = .stopped :=
  ⟨by decide, rfl, by decide, rfl⟩

/-- Trace for the Stop/natural-exit race: the child exits on its own
with code 0 just after `Stop()`'s guard observed status Running; the
kill body sets status Stopped, then the waiter stores the natural exit
code 0. -/
def stopNaturalRaceActs : List Act :=
  [.stopKillCheck, .childExit 0, .stopKillDispatch, .stopKillSet,
   .writerFinish, .wWriterDone, .wReap, .wCAS, .wStore]

def stopNaturalRaceFinal : JobState where
  status := .stopped
  exitCode := 0
  exitStored := true
  once := .done (some .byStop)
  wpc := .w5
  child := .exited 0
  writerFin := true
  reaped := true
  rootfsRemoved := false
  sigkills := 1
  stopPending := 0
  stopWaiting := 1
  stopReturned := 0

/-- C5 counterexample: a job can end Stopped with a stored exit code of
0 (the child's natural code), because the waiter stores
`cmd.ProcessState.ExitCode()` unconditionally (job.go:327) while
`Stop()` can win the status race against an already-exited child. -/
theorem stopped_status_with_natural_exit_code :
    runActs (initState 0 1) stopNaturalRaceActs = some stopNaturalRaceFinal ∧
    stopNaturalRaceFinal.status = .stopped ∧
    stopNaturalRaceFinal.exitStored = true ∧
    stopNaturalRaceFinal.exitCode = 0 :=
  ⟨by decide, rfl, rfl, rfl⟩

/-- C5 (amended): whenever the status cell holds Running the exit-code
cell still holds the initial -1 and the store has not happened; the
exit code is stored at most once (before the store it is -1, after it
it never changes again) and its stored value is
`cmd.ProcessState.ExitCode()` of the child — the child's own code on
natural exit, and -1 whenever the child was terminated by the SIGKILL.
If the child exited on its own but Stop or the timeout won the status
race, the child's natural code is stored (the original claim's
unconditional "-1 for Stopped/TimedOut" fails there, see
`stopped_status_with_natural_exit_code`). -/
theorem exit_code_monotone {timeout : Int} {nStops : Nat} {s : JobState}
    (h : Reach (initState timeout nStops) s) :
    (s.status = .running → s.exitCode = -1 ∧ s.exitStored = false) ∧
    (s.exitStored = false → s.exitCode = -1) ∧
    (s.exitStored = true → s.exitCode = childExitCode s.child) ∧
    (s.exitStored = true → s.child = .killed → s.exitCode = -1) ∧
    (∀ u, Step s u → s.exitStored = true →
      u.exitStored = true ∧ u.exitCode = s.exitCode) := by
  have hi := reach_inv h
  refine ⟨?_, hi.notStored, hi.storedVal, ?_, ?_⟩
  · intro hrun
    have hstF : s.exitStored = false := by
      cases hst : s.exitStored
      · rfl
      · refine absurd hrun (hi.lateStatus ?_)
        rcases hi.storedIff.mp hst with h5 | hD
        · exact Or.inr (Or.inl h5)
        · exact Or.inr (Or.inr hD)
    exact ⟨hi.notStored hstF, hstF⟩
  · intro hst hch
    rw [hi.storedVal hst, hch]
    rfl
  · intro u hstep hst
    exact stored_stable hi hstep hst

/-- Trace of a plain natural completion with child code 7. -/
def naturalDoneActs : List Act :=
  [.childExit 7, .writerFinish, .wWriterDone, .wReap, .wCAS, .wStore]

def naturalDoneFinal : JobState where
  status := .completed
  exitCode := 7
  exitStored := true
  once := .fresh
  wpc := .w5
  child := .exited 7
  writerFin := true
  reaped := true
  rootfsRemoved := false
  sigkills := 0
  stopPending := 0
  stopWaiting := 0
  stopReturned := 0

/-- Witness for `exit_code_monotone` at a concrete reachable state. -/
theorem exit_code_monotone_witness :
    naturalDoneFinal.exitCode = childExitCode naturalDoneFinal.child ∧
    naturalDoneFinal.exitCode = 7 :=
  ⟨(exit_code_monotone
      (@reach_of_runActs naturalDoneActs (initState 0 0) naturalDoneFinal
        (by decide))).2.2.1 rfl, rfl⟩

/-- C6: at most one SIGKILL syscall is ever issued for a job no matter
how many `Stop()` calls race (the `stopOnce` guard); when the stop kill
body observed a Running job and completed, exactly one SIGKILL was
dispatched and the status is Stopped from then on; and no `Stop()` call
returns before both the waiter and the output writer have run their
`wg.Done` (job.go:181 `wg.Wait`). -/
theorem stop_idempotent_one_sigkill {timeout : Int} {nStops : Nat}
    {s : JobState} (h : Reach (initState timeout nStops) s) :
    s.sigkills ≤ 1 ∧
    (s.once = .done (some .byStop) → s.status = .stopped ∧ s.sigkills = 1) ∧
    (1 ≤ s.stopReturned → s.wpc = .wDone ∧ s.writerFin = true) := by
  have hi := reach_inv h
  refine ⟨?_, fun hd => ⟨hi.stopDone hd, ?_⟩, hi.returnedDrained⟩
  · rw [hi.sigCount]; exact onceKills_le_one s.once
  · rw [hi.sigCount, hd]; rfl

/-- Trace with two concurrent `Stop()` callers on a running job: the
first runs the kill body, the second skips it; both return after the
drain. -/
def stopTwiceActs : List Act :=
  [.stopKillCheck, .stopKillDispatch, .stopKillSet, .writerFinish,
   .wWriterDone, .wReap, .wCAS, .wStore, .wCleanup, .stopSkip,
   .stopReturn, .stopReturn]

def stopTwiceFinal : JobState where
  status := .stopped
  exitCode := -1
  exitStored := true
  once := .done (some .byStop)
  wpc := .wDone
  child := .killed
  writerFin := true
  reaped := true
  rootfsRemoved := true
  sigkills := 1
  stopPending := 0
  stopWaiting := 0
  stopReturned := 2

/-- Witness for `stop_idempotent_one_sigkill`: two Stop calls, one
SIGKILL, status Stopped, both returned after the drain. -/
theorem stop_idempotent_one_sigkill_witness :
    stopTwiceFinal.status = .stopped ∧ stopTwiceFinal.sigkills = 1 ∧
    stopTwiceFinal.wpc = .wDone :=
  have ht := stop_idempotent_one_sigkill
    (@reach_of_runActs stopTwiceActs (initState 0 2) stopTwiceFinal
      (by decide))
  ⟨(ht.2.1 rfl).1, (ht.2.1 rfl).2, (ht.2.2 (by decide)).1⟩

/-- Trace where the job completes naturally before `Stop()` is called:
Stop's guard sees Completed, so no SIGKILL is ever dispatched, and the
call returns immediately after `wg.Wait`. -/
def stopAfterExitActs : List Act :=
  [.childExit 0, .writerFinish, .wWriterDone, .wReap, .wCAS, .wStore,
   .wCleanup, .stopKillCheck, .stopReturn]

def stopAfterExitFinal : JobState where
  status := .completed
  exitCode := 0
  exitStored := true
  once := .done none
  wpc := .wDone
  child := .exited 0
  writerFin := true
  reaped := true
  rootfsRemoved := true
  sigkills := 0
  stopPending := 0
  stopWaiting := 0
  stopReturned := 1

/-- C7 counterexample: `Stop()` can return with zero SIGKILLs ever
dispatched — when the job already completed naturally, the kill body's
guard (job.go:165) fails and nothing is killed, so "the child process
group has been killed" does not hold at Stop-return as the claim
states. -/
theorem stop_returns_without_kill :
    runActs (initState 0 1) stopAfterExitActs = some stopAfterExitFinal ∧
    stopAfterExitFinal.stopReturned = 1 ∧
    stopAfterExitFinal.sigkills = 0 ∧
    stopAfterExitFinal.child = .exited 0 :=
  ⟨by decide, rfl, rfl, rfl⟩

/-- C7 (amended): when a `Stop()` call has returned, the child is no
longer running (killed by the dispatched SIGKILL or already exited on
its own), the output writer has closed the output file and fired
writer-done, the waiter has reaped the child, stored the terminal
status and the exit code, and removed the rootfs; moreover the writer
fires writer-done before the child is ever reaped. -/
theorem stop_return_implies_done {timeout : Int} {nStops : Nat}
    {s : JobState} (h : Reach (initState timeout nStops) s) :
    (1 ≤ s.stopReturned →
      s.child ≠ .alive ∧ s.writerFin = true ∧ s.reaped = true ∧
      s.exitStored = true ∧ s.status ≠ .running ∧ s.rootfsRemoved = true) ∧
    (s.reaped = true → s.writerFin = true) := by
  have hi := reach_inv h
  refine ⟨fun hr => ?_, hi.reapedWriter⟩
  obtain ⟨hw, hf⟩ := hi.returnedDrained hr
  have hlc := hi.lateChild (Or.inr (Or.inr (Or.inr hw)))
  exact ⟨hlc.1, hf, hlc.2, hi.storedIff.mpr (Or.inr hw),
    hi.lateStatus (Or.inr (Or.inr hw)), hi.doneCleanup hw⟩

/-- Trace where `Stop()` kills a running job and returns. -/
def stopReturnActs : List Act :=
  [.stopKillCheck, .stopKillDispatch, .stopKillSet, .writerFinish,
   .wWriterDone, .wReap, .wCAS, .wStore, .wCleanup, .stopReturn]

def stopReturnFinal : JobState where
  status := .stopped
  exitCode := -1
  exitStored := true
  once := .done (some .byStop)
  wpc := .wDone
  child := .killed
  writerFin := true
  reaped := true
  rootfsRemoved := true
  sigkills := 1
  stopPending := 0
  stopWaiting := 0
  stopReturned := 1

/-- Witness for `stop_return_implies_done` at a concrete trace. -/
theorem stop_return_implies_done_witness :
    stopReturnFinal.child ≠ .alive ∧ stopReturnFinal.writerFin = true ∧
    stopReturnFinal.reaped = true ∧ stopReturnFinal.exitStored = true :=
  have ht := stop_return_implies_done
    (@reach_of_runActs stopReturnActs (initState 0 1) stopReturnFinal
      (by decide))
  have hc := ht.1 (by decide)
  ⟨hc.1, hc.2.1, hc.2.2.1, hc.2.2.2.1⟩

/-- C10: with a timeout ≤ 0 (zero or negative) the waiter never enters
the timer select (job.go:305 guards it with `Timeout > 0`), no timeout
kill is ever armed, and the job can never become TimedOut: it runs
until natural completion or an explicit Stop. -/
theorem nonpositive_timeout_never_timedOut {timeout : Int} {nStops : Nat}
    {s : JobState} (ht : timeout ≤ 0)
    (h : Reach (initState timeout nStops) s) :
    s.status ≠ .timedOut ∧ s.wpc ≠ .w0 ∧ s.wpc ≠ .wKill ∧
    s.wpc ≠ .wKillB1 ∧ s.wpc ≠ .wKillB2 ∧
    s.once ≠ .done (some .byTimeout) := by
  have hi := reach_noTimeout ht h
  exact ⟨hi.nstatus, hi.npc0, hi.npcK, hi.npcB1, hi.npcB2, hi.nonceD⟩

/-- Trace with a strictly negative timeout running to completion. -/
def negTimeoutActs : List Act :=
  [.childExit 0, .writerFinish, .wWriterDone, .wReap, .wCAS, .wStore,
   .wCleanup]

def negTimeoutFinal : JobState where
  status := .completed
  exitCode := 0
  exitStored := true
  once := .fresh
  wpc := .wDone
  child := .exited 0
  writerFin := true
  reaped := true
  rootfsRemoved := true
  sigkills := 0
  stopPending := 1
  stopWaiting := 0
  stopReturned := 0

/-- Witness for `nonpositive_timeout_never_timedOut` with timeout -3. -/
theorem nonpositive_timeout_never_timedOut_witness :
    negTimeoutFinal.status ≠ .timedOut ∧ negTimeoutFinal.wpc ≠ .w0 :=
  have ht := nonpositive_timeout_never_timedOut
    (by decide : (-3 : Int) ≤ 0)
    (@reach_of_runActs negTimeoutActs (initState (-3) 1) negTimeoutFinal
      (by decide))
  ⟨ht.1, ht.2.1⟩

end Lifecycle

namespace Tail

/-- Bytes of the output stream, kept abstract. -/
abbrev Byte := Nat

/-- Read-buffer size of the tailer goroutine (job.go:51). -/
def outputBufSize : Nat := 1024

/-- Position of a tailer goroutine spawned by `job.Output`
(job.go:222-289).  `reading` = at `f.Read(buf)` in the loop head;
`selecting` = the last read returned EOF and the goroutine is in the
select over watcher events, watcher errors, cancellation and
writer-done; the `closed*` phases are the return paths: via the
second writer-done receipt, via `cancel`, via watcher
shutdown/error, or via a non-EOF read error. -/
inductive TPhase
  | reading
  | selecting
  | closedDone
  | closedCancel
  | closedWatcher
  | closedErr
  deriving DecidableEq, Repr

/-- One tailer: its private file descriptor offset, the bytes sent on
its out channel so far, its `readOnceMore` flag (job.go:238), its
`canceled` one-shot channel, and its program counter. -/
structure Tailer where
  offset : Nat
  emitted : List Byte
  rom : Bool
  canceled : Bool
  phase : TPhase
  deriving DecidableEq, Repr

/-- State of one job's output subsystem: the bytes the output writer
has appended to the output file so far, whether `outputWriterDone` has
been closed (after which the writer appends nothing more, job.go:341),
and the live tailers. -/
structure SysState where
  file : List Byte
  wdone : Bool
  tailers : List Tailer
  deriving DecidableEq, Repr

/-- Freshly created output file (truncated by `os.Create`,
job.go:431), writer running, no tailer yet. -/
def initSys : SysState := ⟨[], false, []⟩

/-- State of a tailer right after `Output()` set it up: file opened at
offset 0 (job.go:216), nothing emitted, `readOnceMore := true`. -/
def newTailer : Tailer := ⟨0, [], true, false, .reading⟩

/-- Atomic actions of the output subsystem.  A tailer is addressed by
its index.  Watcher events are allowed nondeterministically whenever a
tailer is in its select — a superset of the real inotify behavior,
which only makes the proved safety properties stronger. -/
inductive Act
  | appendOut (chunk : List Byte)
  | fireDone
  | subscribe
  | tRead (i : Nat)
  | tReadErr (i : Nat)
  | tCancel (i : Nat)
  | tWatcherEvent (i : Nat)
  | tWatcherClosed (i : Nat)
  | tSelCancel (i : Nat)
  | tSelDone (i : Nat)
  deriving DecidableEq, Repr

/-- One execution of `f.Read(buf)` plus the chunk send (job.go:241-260):
when bytes are available past the offset, up to `outputBufSize` of them
are copied out and sent (`n > 0`, nil error, `continue`); at
end-of-file the read returns EOF and the goroutine falls through to the
select. -/
def readStep (file : List Byte) (t : Tailer) : Tailer :=
  if t.offset < file.length then
    let chunk := (file.drop t.offset).take outputBufSize
    { t with offset := t.offset + chunk.length, emitted := t.emitted ++ chunk }
  else
    { t with phase := .selecting }

/-- Small-step interpreter for the output subsystem.

Correspondence with job.go:
* `appendOut` — the output writer's `io.Copy` appends bytes to the
  output file (job.go:350); impossible once writer-done fired.
* `fireDone` — `close(j.outputWriterDone)` after the writer closed the
  file (job.go:341-346).
* `subscribe` — an `Output()` call installs a watcher and opens the
  file at offset 0 (job.go:211-219), at any time.
* `tRead i` — one loop iteration of tailer `i` at the read
  (job.go:241).
* `tReadErr i` — a non-EOF read error: log and return (job.go:253-257).
* `tCancel i` — the caller invokes the returned `cancel` closure; the
  `cancelOnce` guard makes repeats no-ops (job.go:201-205).
* `tWatcherEvent i` — the select wakes on a watcher event and loops
  back to the read (job.go:265-269).
* `tWatcherClosed i` — the select wakes on watcher-events shutdown or a
  watcher error and returns (job.go:266-274).
* `tSelCancel i` — the select observes the canceled channel and
  returns (job.go:275-278).
* `tSelDone i` — the select observes `outputWriterDone`: on the first
  receipt (`readOnceMore`) it loops back to read once more; on a later
  receipt it returns (job.go:279-286). -/
def apply : Act → SysState → Option SysState
  | .appendOut chunk, s =>
    if s.wdone = false then some { s with file := s.file ++ chunk } else none
  | .fireDone, s =>
    if s.wdone = false then some { s with wdone := true } else none
  | .subscribe, s => some { s with tailers := s.tailers ++ [newTailer] }
  | .tRead i, s =>
    match s.tailers[i]? with
    | some t =>
      if t.phase = .reading then
        some { s with tailers := s.tailers.set i (readStep s.file t) }
      else none
    | none => none
  | .tReadErr i, s =>
    match s.tailers[i]? with
    | some t =>
      if t.phase = .reading then
        some { s with tailers := s.tailers.set i { t with phase := .closedErr } }
      else none
    | none => none
  | .tCancel i, s =>
    match s.tailers[i]? with
    | some t =>
      if t.canceled = false then
        some { s with tailers := s.tailers.set i { t with canceled := true } }
      else none
    | none => none
  | .tWatcherEvent i, s =>
    match s.tailers[i]? with
    | some t =>
      if t.phase = .selecting then
        some { s with tailers := s.tailers.set i { t with phase := .reading } }
      else none
    | none => none
  | .tWatcherClosed i, s =>
    match s.tailers[i]? with
    | some t =>
      if t.phase = .selecting then
        some { s with tailers := s.tailers.set i { t with phase := .closedWatcher } }
      else none
    | none => none
  | .tSelCancel i, s =>
    match s.tailers[i]? with
    | some t =>
      if t.phase = .selecting ∧ t.canceled = true then
        some { s with tailers := s.tailers.set i { t with phase := .closedCancel } }
      else none
    | none => none
  | .tSelDone i, s =>
    match s.tailers[i]? with
    | some t =>
      if t.phase = .selecting ∧ s.wdone = true then
        if t.rom = true then
          some { s with tailers :=
            s.tailers.set i { t with rom := false, phase := .reading } }
        else
          some { s with tailers :=
            s.tailers.set i { t with phase := .closedDone } }
      else none
    | none => none

/-- One interleaving step of the output subsystem. -/
def TStep (s t : SysState) : Prop := ∃ a, apply a s = some t

/-- States reachable from `s0`. -/
inductive TReach (s0 : SysState) : SysState → Prop
  | refl : TReach s0 s0
  | tail {s t : SysState} : TReach s0 s → TStep s t → TReach s0 t

/-- Run a concrete list of actions. -/
def runTActs : SysState → List Act → Option SysState
  | s, [] => some s
  | s, a :: rest =>
    match apply a s with
    | some t => runTActs t rest
    | none => none

theorem treach_head {s t u : SysState} (h : TStep s t) (ht : TReach t u) :
    TReach s u := by
  induction ht with
  | refl => exact TReach.tail TReach.refl h
  | tail _ hstep ih => exact TReach.tail ih hstep

theorem treach_of_runTActs {acts : List Act} :
    ∀ {s t : SysState}, runTActs s acts = some t → TReach s t := by
  induction acts with
  | nil => intro s t h; cases h; exact TReach.refl
  | cons a rest ih =>
    intro s t h
    unfold runTActs at h
    cases ha : apply a s with
    | none => rw [ha] at h; cases h
    | some u => rw [ha] at h; exact treach_head ⟨a, ha⟩ (ih h)

/-- Per-tailer invariant relative to the current file content and the
writer-done flag: what the tailer emitted is exactly the file prefix up
to its offset; the offset never passes the end of file; once
`readOnceMore` has been consumed, writer-done had fired (so the file is
frozen), and thereafter whenever the tailer is back in its select — in
particular when it exits through the writer-done branch — its offset is
at the end of the file. -/
structure TInv (file : List Byte) (wdone : Bool) (t : Tailer) : Prop where
  emittedEq : t.emitted = file.take t.offset
  offLe : t.offset ≤ file.length
  romDone : t.rom = false → wdone = true
  romOff : t.rom = false → (t.phase = .selecting ∨ t.phase = .closedDone) →
    t.offset = file.length
  doneRom : t.phase = .closedDone → t.rom = false

/-- System invariant: every tailer satisfies `TInv`. -/
structure SInv (s : SysState) : Prop where
  each : ∀ t ∈ s.tailers, TInv s.file s.wdone t

theorem tinv_new (file : List Byte) (wdone : Bool) : TInv file wdone newTailer := by
  constructor <;> simp [newTailer]

theorem tinv_append {file chunk : List Byte} {t : Tailer}
    (h : TInv file false t) : TInv (file ++ chunk) false t := by
  refine ⟨?_, ?_, h.romDone, ?_, h.doneRom⟩
  · rw [h.emittedEq, List.take_append_of_le_length h.offLe]
  · calc t.offset ≤ file.length := h.offLe
      _ ≤ (file ++ chunk).length := by simp
  · intro hr
    exact absurd (h.romDone hr) (by simp)

theorem tinv_fire {file : List Byte} {t : Tailer}
    (h : TInv file false t) : TInv file true t :=
  ⟨h.emittedEq, h.offLe, fun _ => rfl,
   fun hr _ => absurd (h.romDone hr) (by simp), h.doneRom⟩

theorem tinv_read {file : List Byte} {w : Bool} {t : Tailer}
    (h : TInv file w t) (hp : t.phase = .reading) :
    TInv file w (readStep file t) := by
  unfold readStep
  split_ifs with hlt
  · refine ⟨?_, ?_, ?_, ?_, ?_⟩ <;> dsimp only
    · rw [h.emittedEq, List.take_add]
      congr 1
      rw [List.length_take, ← List.take_take, List.take_length]
    · rw [List.length_take, List.length_drop]
      have := h.offLe
      omega
    · exact h.romDone
    · rw [hp]
      intro _ hsel
      rcases hsel with hsel | hsel <;> cases hsel
    · rw [hp]
      intro hcd
      cases hcd
  · refine ⟨?_, ?_, ?_, ?_, ?_⟩ <;> dsimp only
    · exact h.emittedEq
    · exact h.offLe
    · exact h.romDone
    · intro _ _
      have := h.offLe
      omega
    · intro hcd
      cases hcd

theorem tinv_phase {file : List Byte} {w : Bool} {t : Tailer}
    (h : TInv file w t) (p : TPhase) (hp1 : p ≠ .selecting)
    (hp2 : p ≠ .closedDone) : TInv file w { t with phase := p } := by
  refine ⟨h.emittedEq, h.offLe, h.romDone, ?_, ?_⟩
  · intro _ hsel
    rcases hsel with hsel | hsel
    · exact absurd hsel hp1
    · exact absurd hsel hp2
  · intro hcd
    exact absurd hcd hp2

theorem tinv_cancel {file : List Byte} {w : Bool} {t : Tailer}
    (h : TInv file w t) : TInv file w { t with canceled := true } :=
  ⟨h.emittedEq, h.offLe, h.romDone, h.romOff, h.doneRom⟩

theorem tinv_selDoneFirst {file : List Byte} {t : Tailer}
    (h : TInv file true t) :
    TInv file true { t with rom := false, phase := .reading } := by
  refine ⟨h.emittedEq, h.offLe, fun _ => rfl, ?_, ?_⟩
  · intro _ hsel
    rcases hsel with hsel | hsel <;> cases hsel
  · intro hcd
    cases hcd

theorem tinv_selDoneLast {file : List Byte} {t : Tailer}
    (h : TInv file true t) (hsel : t.phase = .selecting)
    (hrom : t.rom = false) :
    TInv file true { t with phase := .closedDone } :=
  ⟨h.emittedEq, h.offLe, fun _ => rfl,
   fun _ _ => h.romOff hrom (Or.inl hsel), fun _ => hrom⟩

theorem mem_of_index {l : List Tailer} {i : Nat} {t : Tailer}
    (h : l[i]? = some t) : t ∈ l := by
  obtain ⟨hlt, rfl⟩ := List.getElem?_eq_some.mp h
  exact List.getElem_mem hlt

theorem init_sinv : SInv initSys := ⟨by intro t ht; cases ht⟩

theorem tstep_sinv {s u : SysState} (hs : SInv s) (h : TStep s u) :
    SInv u := by
  obtain ⟨a, ha⟩ := h
  cases a with
  | appendOut chunk =>
    simp only [apply] at ha
    split_ifs at ha with hw
    simp only [Option.some.injEq] at ha
    subst ha
    refine ⟨fun t ht => ?_⟩
    dsimp only at ht ⊢
    have h0 := hs.each t ht
    rw [hw] at h0 ⊢
    exact tinv_append h0
  | fireDone =>
    simp only [apply] at ha
    split_ifs at ha with hw
    simp only [Option.some.injEq] at ha
    subst ha
    refine ⟨fun t ht => ?_⟩
    dsimp only at ht ⊢
    have h0 := hs.each t ht
    rw [hw] at h0
    exact tinv_fire h0
  | subscribe =>
    simp only [apply, Option.some.injEq] at ha
    subst ha
    refine ⟨fun t ht => ?_⟩
    dsimp only at ht ⊢
    rcases List.mem_append.mp ht with hmem | hmem
    · exact hs.each t hmem
    · rw [List.mem_singleton.mp hmem]
      exact tinv_new s.file s.wdone
  | tRead i =>
    simp only [apply] at ha
    split at ha
    case _ t0 hi =>
      split_ifs at ha with hp
      simp only [Option.some.injEq] at ha
      subst ha
      refine ⟨fun t ht => ?_⟩
      dsimp only at ht ⊢
      rcases List.mem_or_eq_of_mem_set ht with hmem | rfl
      · exact hs.each t hmem
      · exact tinv_read (hs.each t0 (mem_of_index hi)) hp
    case _ => cases ha
  | tReadErr i =>
    simp only [apply] at ha
    split at ha
    case _ t0 hi =>
      split_ifs at ha with hp
      simp only [Option.some.injEq] at ha
      subst ha
      refine ⟨fun t ht => ?_⟩
      dsimp only at ht ⊢
      rcases List.mem_or_eq_of_mem_set ht with hmem | rfl
      · exact hs.each t hmem
      · exact tinv_phase (hs.each t0 (mem_of_index hi)) _ (by simp) (by simp)
    case _ => cases ha
  | tCancel i =>
    simp only [apply] at ha
    split at ha
    case _ t0 hi =>
      split_ifs at ha with hp
      simp only [Option.some.injEq] at ha
      subst ha
      refine ⟨fun t ht => ?_⟩
      dsimp only at ht ⊢
      rcases List.mem_or_eq_of_mem_set ht with hmem | rfl
      · exact hs.each t hmem
      · exact tinv_cancel (hs.each t0 (mem_of_index hi))
    case _ => cases ha
  | tWatcherEvent i =>
    simp only [apply] at ha
    split at ha
    case _ t0 hi =>
      split_ifs at ha with hp
      simp only [Option.some.injEq] at ha
      subst ha
      refine ⟨fun t ht => ?_⟩
      dsimp only at ht ⊢
      rcases List.mem_or_eq_of_mem_set ht with hmem | rfl
      · exact hs.each t hmem
      · exact tinv_phase (hs.each t0 (mem_of_index hi)) _ (by simp) (by simp)
    case _ => cases ha
  | tWatcherClosed i =>
    simp only [apply] at ha
    split at ha
    case _ t0 hi =>
      split_ifs at ha with hp
      simp only [Option.some.injEq] at ha
      subst ha
      refine ⟨fun t ht => ?_⟩
      dsimp only at ht ⊢
      rcases List.mem_or_eq_of_mem_set ht with hmem | rfl
      · exact hs.each t hmem
      · exact tinv_phase (hs.each t0 (mem_of_index hi)) _ (by simp) (by simp)
    case _ => cases ha
  | tSelCancel i =>
    simp only [apply] at ha
    split at ha
    case _ t0 hi =>
      split_ifs at ha with hp
      simp only [Option.some.injEq] at ha
      subst ha
      refine ⟨fun t ht => ?_⟩
      dsimp only at ht ⊢
      rcases List.mem_or_eq_of_mem_set ht with hmem | rfl
      · exact hs.each t hmem
      · exact tinv_phase (hs.each t0 (mem_of_index hi)) _ (by simp) (by simp)
    case _ => cases ha
  | tSelDone i =>
    simp only [apply] at ha
    split at ha
    case _ t0 hi =>
      split_ifs at ha with hg hrom
      · simp only [Option.some.injEq] at ha
        subst ha
        refine ⟨fun t ht => ?_⟩
        dsimp only at ht ⊢
        obtain ⟨hsel, hw⟩ := hg
        rcases List.mem_or_eq_of_mem_set ht with hmem | rfl
        · exact hs.each t hmem
        · have h0 := hs.each t0 (mem_of_index hi)
          rw [hw] at h0 ⊢
          exact tinv_selDoneFirst h0
      · simp only [Option.some.injEq] at ha
        subst ha
        refine ⟨fun t ht => ?_⟩
        dsimp only at ht ⊢
        obtain ⟨hsel, hw⟩ := hg
        rcases List.mem_or_eq_of_mem_set ht with hmem | rfl
        · exact hs.each t hmem
        · have h0 := hs.each t0 (mem_of_index hi)
          rw [hw] at h0 ⊢
          exact tinv_selDoneLast h0 hsel (by simpa using hrom)
    case _ => cases ha

theorem treach_sinv {s : SysState} (h : TReach initSys s) : SInv s := by
  induction h with
  | refl => exact init_sinv
  | tail _ hstep ih => exact tstep_sinv ih hstep

/-- C1: every tailer that exits through the writer-done return path
(reads its stream to the end, not cancelled) has emitted exactly the
byte sequence the output writer appended to the job's output file,
starting from offset 0, regardless of when it subscribed relative to
the writer; consequently any two such tailers observe byte-identical
streams.  The "read once more" flag (job.go:238, 282-285) is what makes
the first conjunct hold: an exit through the writer-done branch is only
possible after a full read-to-EOF that started once writer-done had
already fired, when the file can no longer grow. -/
theorem tailer_reads_full_output {s : SysState} (h : TReach initSys s) :
    (∀ t ∈ s.tailers, t.phase = .closedDone → t.emitted = s.file) ∧
    (∀ t1 ∈ s.tailers, ∀ t2 ∈ s.tailers, t1.phase = .closedDone →
      t2.phase = .closedDone → t1.emitted = t2.emitted) := by
  have hi := treach_sinv h
  have hfull : ∀ t ∈ s.tailers, t.phase = .closedDone → t.emitted = s.file := by
    intro t ht hcd
    have h0 := hi.each t ht
    have hrom := h0.doneRom hcd
    have hoff := h0.romOff hrom (Or.inr hcd)
    rw [h0.emittedEq, hoff, List.take_length]
  refine ⟨hfull, fun t1 h1 t2 h2 hc1 hc2 => ?_⟩
  rw [hfull t1 h1 hc1, hfull t2 h2 hc2]

/-- Trace with two tailers: the first subscribes before any output and
drains across two appends, using its read-once-more hop at writer-done;
the second subscribes only after writer-done and still reads everything
from offset 0. -/
def fanoutActs : List Act :=
  [.subscribe, .appendOut [10, 20], .tRead 0, .tRead 0, .appendOut [30],
   .fireDone, .tSelDone 0, .tRead 0, .tRead 0, .tSelDone 0, .subscribe,
   .tRead 1, .tRead 1, .tSelDone 1, .tRead 1, .tSelDone 1]

def doneTailer : Tailer := ⟨3, [10, 20, 30], false, false, .closedDone⟩

def fanoutFinal : SysState := ⟨[10, 20, 30], true, [doneTailer, doneTailer]⟩

/-- Witness for `tailer_reads_full_output`: an early and a late
subscriber both emit exactly the full output [10, 20, 30]. -/
theorem tailer_reads_full_output_witness :
    doneTailer.emitted = fanoutFinal.file ∧ doneTailer.emitted = [10, 20, 30] :=
  have h := tailer_reads_full_output
    (@treach_of_runTActs fanoutActs initSys fanoutFinal (by decide))
  ⟨h.1 doneTailer (by decide) rfl, rfl⟩

end Tail

namespace Server

/-- Job handles are abstract tokens standing for `lib.Job` values. -/
abbrev JobHandle := Nat

/-- The server's process-wide registry `safeJobs`
(cmd/server/safeJobs.go): a string-keyed map of job handles.  An
association list with insert-at-front reproduces last-write-wins. -/
def Table := List (String × JobHandle)

def tableGet (tbl : Table) (key : String) : Option JobHandle :=
  match tbl.find? (fun e => e.1 == key) with
  | some e => some e.2
  | none => none

def tableSet (tbl : Table) (key : String) (j : JobHandle) : Table :=
  (key, j) :: tbl

/-- Possible outcomes of the lookup part of the Stop, Status and Output
handlers. -/
inductive RpcOutcome
  | ok (j : JobHandle)
  | permissionDenied
  | unauthenticated
  deriving DecidableEq, Repr

/-- Lookup performed by the Stop handler (and identically by Status and
Output): extract the client CN (empty CN fails Unauthenticated), then
`s.jobs.Get(req.JobId + cn)` — plain string concatenation of the job id
and the CN; a miss returns PermissionDenied, a hit proceeds to act on
the found job. -/
def opLookup (tbl : Table) (cn jobId : String) : RpcOutcome :=
  if cn = "" then .unauthenticated
  else
    match tableGet tbl (jobId ++ cn) with
    | none => .permissionDenied
    | some j => .ok j

/-- Registration done by the Start handler:
`s.jobs.Set(j.ID()+cn, j)`. -/
def registerJob (tbl : Table) (cn jobId : String) (j : JobHandle) : Table :=
  tableSet tbl (jobId ++ cn) j

/-- A syntactically valid 24-hex-character job id. -/
def jidA : String := "0123456789abcdef01234567"

/-- C2: evaluation of the code at the failing input.  The registry key
is the bare string concatenation `jobId + cn` with no separator, so
after owner CN "bob" registers the job with id `jidA` (key
`jidA ++ "bob"`), a different caller whose CN is "ob" requesting job id
`jidA ++ "b"` builds the same key: the lookup SUCCEEDS and the handler
acts on bob's job, instead of failing PermissionDenied as the claim
states for every owner-mismatched request.  An honest mismatched lookup
(same id, different non-splicing CN) is denied, as the last conjunct
shows. -/
theorem cross_owner_lookup_succeeds :
    opLookup (registerJob [] "bob" jidA 7) "ob" (jidA ++ "b") = .ok 7 ∧
    "ob" ≠ "bob" ∧ jidA ++ "b" ≠ jidA ∧
    opLookup (registerJob [] "bob" jidA 7) "alice" jidA = .permissionDenied :=
  ⟨rfl, by decide, by decide, rfl⟩

end Server

namespace StartM

/-- Result of `dirCopy.Copy(RootFSSource, j.rootFSPath)` (job.go:470):
success, failure leaving a partly-copied tree on disk, or failure
leaving nothing. -/
inductive CopyOutcome
  | ok
  | failKept
  | failClean
  deriving DecidableEq, Repr

/-- Failure oracle for the fallible steps of `StartJob`, in program
order: id generation (job.go:111), rootfs copy (job.go:129), stdout and
stderr pipe creation (job.go:421, 426), output-file creation
(job.go:431), `cmd.Start` (job.go:142). -/
structure Env where
  idGenOk : Bool
  copyOutcome : CopyOutcome
  stdoutPipeOk : Bool
  stderrPipeOk : Bool
  createFileOk : Bool
  cmdStartOk : Bool
  deriving DecidableEq, Repr

/-- On-disk state of the per-job rootfs tree when `StartJob` returns. -/
inductive RootfsDisk
  | absent
  | incomplete
  | complete
  deriving DecidableEq, Repr

/-- Observable persistent effects of one `StartJob` call: whether a job
id was generated, what is on disk under `<RunnerHome>/<id>/rootfs`, and
whether `<RunnerHome>/<id>/output.log` was created. -/
structure Effects where
  idGenerated : Bool
  rootfs : RootfsDisk
  outFileCreated : Bool
  deriving DecidableEq, Repr

def noEffects : Effects := ⟨false, .absent, false⟩

/-- Shallow embedding of `StartJob` (job.go:106-154) as a function of
the command and the failure oracle, returning the error-or-success
result together with what persists on disk at return.  It mirrors the
source order: empty-command check, id generation, rootfs copy, reexec
command setup (no disk effect), stdout pipe, stderr pipe, output-file
create, `cmd.Start`.  No error path removes anything: every failing
branch of the source is a bare `return nil, err`, and the only rootfs
removal is the waiter's `deleteRootFSTree` (job.go:330), which runs
only for successfully started jobs. -/
def startJob (command : String) (env : Env) : Except String Unit × Effects :=
  if command = "" then (.error "config.Path is empty", noEffects)
  else if env.idGenOk = false then (.error "rand read failed", noEffects)
  else
    match env.copyOutcome with
    | .failKept => (.error "rootfs copy failed", ⟨true, .incomplete, false⟩)
    | .failClean => (.error "rootfs copy failed", ⟨true, .absent, false⟩)
    | .ok =>
      if env.stdoutPipeOk = false then
        (.error "stdout pipe failed", ⟨true, .complete, false⟩)
      else if env.stderrPipeOk = false then
        (.error "stderr pipe failed", ⟨true, .complete, false⟩)
      else if env.createFileOk = false then
        (.error "output file create failed", ⟨true, .complete, false⟩)
      else if env.cmdStartOk = false then
        (.error "cmd start failed", ⟨true, .complete, true⟩)
      else (.ok (), ⟨true, .complete, true⟩)

/-- C9: an empty command is rejected with an error before any effect
whatsoever, for every failure oracle: no id generated, no rootfs tree,
no output file (job.go:107-109 returns before anything else runs). -/
theorem empty_command_no_effects (env : Env) :
    startJob "" env = (.error "config.Path is empty", noEffects) := rfl

/-- Oracle where every setup step succeeds and only the final
`cmd.Start` fails. -/
def startFailEnv : Env := ⟨true, .ok, true, true, true, false⟩

/-- C4: evaluation of the code at the failing input.  When the rootfs
copy, both pipes and the output-file creation succeed but `cmd.Start`
fails, `StartJob` returns an error while the fully-copied per-job
rootfs tree and the created output file remain on disk: no error path
of `StartJob` cleans them up, refuting "nothing is persisted ...
removed by the time StartJob returns". -/
theorem start_error_leaves_files :
    startJob "echo hi" startFailEnv
      = (.error "cmd start failed", ⟨true, .complete, true⟩) := rfl

end StartM

namespace Wire

/-- Wire-level response of the Stop and Status handlers: the numeric
status from the direct Go cast `proto.JobStatus(status)` and the exit
code. -/
structure StatusResponse where
  status : Int
  exitCode : Int
  deriving DecidableEq, Repr

/-- Response construction shared by the Stop and Status handlers given
the job's `Status()` snapshot. -/
def statusResponseOf (st : JobStatus) (ec : Int) : StatusResponse :=
  ⟨libCode st, ec⟩

/-- C8: for every successful Stop or Status response, the status field
encodes the job's lifecycle state under the wire mapping RUNNING=0,
COMPLETED=1, STOPPED=2, TIMEDOUT=3, and the exit code passes through
unchanged. -/
theorem wire_status_mapping (ec : Int) :
    (statusResponseOf .running ec).status = 0 ∧
    (statusResponseOf .completed ec).status = 1 ∧
    (statusResponseOf .stopped ec).status = 2 ∧
    (statusResponseOf .timedOut ec).status = 3 ∧
    (statusResponseOf .running ec).exitCode = ec :=
  ⟨rfl, rfl, rfl, rfl, rfl⟩

end Wire

end Runner
